import Mathlib

/-!
Shallow embedding of the `pcg` Go package (files `pcg32.go` and `pcg64.go`):
a PCG-family pseudorandom generator with a 32-bit base generator (64-bit
LCG state plus xorshift-rotate output), a composite 64-bit generator made
of two base generators, jump-ahead/jump-back, rejection-based bounded
sampling, Fisher-Yates shuffling and a 20-byte binary serialization codec.

Machine integers are embedded as `Nat` with explicit reductions modulo
`2 ^ 64` (for Go's `uint64`), `2 ^ 32` (`uint32`) and `2 ^ 8` (`byte`)
exactly where the Go code wraps.  Byte slices are `List Nat`.  Methods that
mutate their receiver are embedded as functions returning the new record;
a method that also returns a value returns a pair.  Loops without a static
bound (the rejection-sampling loops) take an explicit fuel and return
`none` (or a dedicated constructor) when the fuel runs out; Go runtime
panics are embedded as explicit failure values, noted at each definition.
-/

/-- Constant `defaultState` of pcg32.go: the state of an unseeded PCG32. -/
def defaultState : Nat := 0x853c49e6748fea9b

/-- Constant `multiplier` of pcg32.go: the 64-bit LCG multiplier. -/
def multiplier : Nat := 0x5851f42d4c957f2d

/-- Constant `incrementStep` of pcg32.go: the package's fixed additive
constant. -/
def incrementStep : Nat := 0x9e3779b97f4a7c15

/-- Struct `PCG32` of pcg32.go: `state, increment uint64`. -/
structure PCG32 where
  state : Nat
  increment : Nat

/-- Function `NewPCG32` of pcg32.go. -/
def newPCG32 : PCG32 := ⟨defaultState, incrementStep⟩

/-- Method `PCG32.Seed(state, sequence)` of pcg32.go:
`p.increment = (sequence << 1) | 1` (the shift wraps modulo `2 ^ 64`) and
`p.state = (state+p.increment)*multiplier + incrementStep` (both the
multiplication and the addition wrap modulo `2 ^ 64`). -/
def PCG32.seed (_p : PCG32) (state sequence : Nat) : PCG32 :=
  let increment := ((sequence <<< 1) % 2 ^ 64) ||| 1
  ⟨((state + increment) * multiplier + incrementStep) % 2 ^ 64, increment⟩

/-- Method `PCG32.Uint32()` of pcg32.go: one LCG step
`state = old*multiplier + increment` (wrapping modulo `2 ^ 64`) followed by
the XSH-RR output permutation.  `neg_mask = 31`; `rot = uint32(old >> 59)`
is below 32 for any 64-bit state, so the `uint32` subtraction
`neg_mask - rot` never wraps.  Returns (output, updated generator). -/
def PCG32.uint32 (p : PCG32) : Nat × PCG32 :=
  let old := p.state
  let newState := (old * multiplier + p.increment) % 2 ^ 64
  let xorshifted := (((old >>> 18) ^^^ old) >>> 27) % 2 ^ 32
  let rot := (old >>> 59) % 2 ^ 32
  let out := (xorshifted >>> rot) ||| ((xorshifted <<< (31 - rot)) % 2 ^ 32)
  (out, ⟨newState, p.increment⟩)

/-- Loop body of `PCG32.Uintn32(bound)` (pcg32.go): draw `Uint32()` until a
draw is at least `threshold`, then return it reduced modulo `bound`.  The
Go loop has no static bound, so the embedding carries a fuel and returns
`none` when it runs out. -/
def PCG32.uintn32Go (bound threshold : Nat) : Nat → PCG32 → Option (Nat × PCG32)
  | 0, _ => none
  | fuel + 1, p =>
    let r := p.uint32
    if r.1 ≥ threshold then some (r.1 % bound, r.2)
    else PCG32.uintn32Go bound threshold fuel r.2

/-- Method `PCG32.Uintn32(bound)` of pcg32.go: returns 0 when `bound == 0`,
otherwise rejection-samples with `threshold = -bound % bound` computed in
`uint32` arithmetic (`-bound` is `(2 ^ 32 - bound) % 2 ^ 32`). -/
def PCG32.uintn32 (p : PCG32) (bound fuel : Nat) : Option (Nat × PCG32) :=
  if bound = 0 then some (0, p)
  else PCG32.uintn32Go bound (((2 ^ 32 - bound) % 2 ^ 32) % bound) fuel p

/-- Loop of `PCG32.advancedLCG64` (pcg32.go): binary-exponentiation
composition of the affine step, every multiplication and addition wrapping
modulo `2 ^ 64`.  `delta` is halved each iteration, so the loop runs at most
64 times for a 64-bit `delta`; the embedding makes that bound structural
with a fuel argument (the wrapper passes 64, enough for any
`delta < 2 ^ 64`).  Returns the accumulated `(accMul, accAdd)`. -/
def advGo : Nat → Nat → Nat → Nat → Nat → Nat → Nat × Nat
  | _, accMul, accAdd, _, _, 0 => (accMul, accAdd)
  | 0, accMul, accAdd, _, _, _ + 1 => (accMul, accAdd)
  | fuel + 1, accMul, accAdd, mul, add, delta + 1 =>
    let d := delta + 1
    let accMul2 := if d % 2 = 1 then accMul * mul % 2 ^ 64 else accMul
    let accAdd2 := if d % 2 = 1 then (accAdd * mul % 2 ^ 64 + add) % 2 ^ 64 else accAdd
    advGo fuel accMul2 accAdd2 (mul * mul % 2 ^ 64) ((mul + 1) % 2 ^ 64 * add % 2 ^ 64) (d / 2)

/-- Method `PCG32.advancedLCG64(state, delta, mul, add)` of pcg32.go (the
receiver is unused in Go): advances the 64-bit LCG with the accumulated
affine map, `accMul*state + accAdd` wrapping modulo `2 ^ 64`. -/
def advancedLCG64 (state delta mul add : Nat) : Nat :=
  let acc := advGo 64 1 0 mul add delta
  (acc.1 * state % 2 ^ 64 + acc.2) % 2 ^ 64

/-- Method `PCG32.Advance(delta)` of pcg32.go: note the Go code passes the
package constant `incrementStep` to `advancedLCG64`, not the generator's
own `p.increment`. -/
def PCG32.advance (p : PCG32) (delta : Nat) : PCG32 :=
  { p with state := advancedLCG64 p.state delta multiplier incrementStep }

/-- Method `PCG32.Retreat(delta)` of pcg32.go: `safeDelta = ^delta + 1`
in `uint64` arithmetic (the bitwise complement of a 64-bit `delta` is
`2 ^ 64 - 1 - delta`), then `Advance(safeDelta)`. -/
def PCG32.retreat (p : PCG32) (delta : Nat) : PCG32 :=
  p.advance ((2 ^ 64 - 1 - delta % 2 ^ 64 + 1) % 2 ^ 64)

/-- Loop of `PCG32.Shuffle` (pcg32.go): for `i` from `n-1` down to 1, draw
`j := Uintn32(uint32(i+1))` and call `swap(i, j)`.  The embedding records
the swap calls as a list of `(i, j)` pairs (the caller-visible effect) and
threads the generator; `none` propagates fuel exhaustion of `Uintn32`. -/
def PCG32.shuffleGoLoop (fuel : Nat) : Nat → PCG32 → Option (List (Nat × Nat) × PCG32)
  | 0, p => some ([], p)
  | i + 1, p =>
    match p.uintn32 ((i + 2) % 2 ^ 32) fuel with
    | some (j, p2) =>
      match PCG32.shuffleGoLoop fuel i p2 with
      | some (rest, p3) => some ((i + 1, j) :: rest, p3)
      | none => none
    | none => none

/-- Method `PCG32.Shuffle(n, swap)` of pcg32.go: `n` is a Go `int`; a
negative `n` panics (embedded as `none`), `n < 2` returns without drawing
or swapping, otherwise the Fisher-Yates loop runs. -/
def PCG32.shuffleGo (p : PCG32) (n : Int) (fuel : Nat) : Option (List (Nat × Nat) × PCG32) :=
  if n < 0 then none
  else if n < 2 then some ([], p)
  else PCG32.shuffleGoLoop fuel (n - 1).toNat p

/-- Struct `PCG64` of pcg64.go: two `PCG32` sub-generators `hi` and `lo`. -/
structure PCG64 where
  hi : PCG32
  lo : PCG32

/-- Function `NewPCG64(seed1, seed2)` of pcg64.go: seeds `hi` with
`(seed1, 0)` and `lo` with `(seed2, 0)`. -/
def newPCG64 (seed1 seed2 : Nat) : PCG64 :=
  ⟨newPCG32.seed seed1 0, newPCG32.seed seed2 0⟩

/-- Method `PCG64.Seed(seed1, seed2, seq1, seq2)` of pcg64.go:
`mask = ^uint64(0) >> 1 = 2 ^ 63 - 1`; when `seq1` and `seq2` agree under
the mask, `seq2` is replaced by its 64-bit complement; then `lo` is seeded
with `(seed1, seq1)` and `hi` with `(seed2, seq2)`. -/
def PCG64.seed (p : PCG64) (seed1 seed2 seq1 seq2 : Nat) : PCG64 :=
  let mask := 2 ^ 63 - 1
  let seq2b := if seq1 &&& mask = seq2 &&& mask then 2 ^ 64 - 1 - seq2 % 2 ^ 64 else seq2
  { p with lo := p.lo.seed seed1 seq1, hi := p.hi.seed seed2 seq2b }

/-- Method `PCG64.Uint64()` of pcg64.go (fast path):
`uint64(p.hi.Uint32())<<32 | uint64(p.lo.Uint32())`, stepping both
sub-generators. -/
def PCG64.uint64 (p : PCG64) : Nat × PCG64 :=
  let rhi := p.hi.uint32
  let rlo := p.lo.uint32
  ((rhi.1 <<< 32) ||| rlo.1, ⟨rhi.2, rlo.2⟩)

/-- Result of `PCG64.Uint64n`: `panicked` embeds the Go runtime panic
(integer division by zero), `outOfFuel` the embedding's fuel bound on the
rejection loop. -/
inductive U64nResult where
  | ok : Nat → PCG64 → U64nResult
  | panicked : U64nResult
  | outOfFuel : U64nResult

/-- Loop body of `PCG64.Uint64n(bound)` (pcg64.go): draw `Uint64()` until a
draw is at least `threshold`, then return it reduced modulo `bound`. -/
def PCG64.uint64nGo (bound threshold : Nat) : Nat → PCG64 → U64nResult
  | 0, _ => .outOfFuel
  | fuel + 1, p =>
    let r := p.uint64
    if r.1 ≥ threshold then .ok (r.1 % bound) r.2
    else PCG64.uint64nGo bound threshold fuel r.2

/-- Method `PCG64.Uint64n(bound)` of pcg64.go: unlike `PCG32.Uintn32` there
is no `bound == 0` guard; the Go code computes `threshold := -bound % bound`
first, which for `bound == 0` is an integer division by zero and panics at
runtime (embedded as `panicked`). -/
def PCG64.uint64n (p : PCG64) (bound fuel : Nat) : U64nResult :=
  if bound = 0 then .panicked
  else PCG64.uint64nGo bound (((2 ^ 64 - bound) % 2 ^ 64) % bound) fuel p

/-- Method `PCG64.Advance(delta)` of pcg64.go: advances both
sub-generators. -/
def PCG64.advance (p : PCG64) (delta : Nat) : PCG64 :=
  ⟨p.hi.advance delta, p.lo.advance delta⟩

/-- Method `PCG64.Retreat(delta)` of pcg64.go: the Go code computes
`safeDelta := ^uint64(0) - 1`, which is the constant `2 ^ 64 - 2` and does
not involve `delta` at all, then calls `Advance(safeDelta)`. -/
def PCG64.retreat (p : PCG64) (_delta : Nat) : PCG64 :=
  p.advance (2 ^ 64 - 1 - 1)

/-- Loop of `PCG64.Shuffle` (pcg64.go): for `i` from `n-1` down to 1, draw
`j := Uint64n(uint64(i+1))` and call `swap(i, j)`; swap calls are recorded
as `(i, j)` pairs.  A panic or fuel exhaustion inside `Uint64n` propagates
as `none`. -/
def PCG64.shuffleGoLoop (fuel : Nat) : Nat → PCG64 → Option (List (Nat × Nat) × PCG64)
  | 0, p => some ([], p)
  | i + 1, p =>
    match p.uint64n ((i + 2) % 2 ^ 64) fuel with
    | .ok j p2 =>
      match PCG64.shuffleGoLoop fuel i p2 with
      | some (rest, p3) => some ((i + 1, j) :: rest, p3)
      | none => none
    | _ => none

/-- Method `PCG64.Shuffle(n, swap)` of pcg64.go: `n` is a Go `int`.  There
is no guard at all: the loop `for i := n - 1; i > 0; i--` simply runs zero
times when `n < 2`, including every negative `n`. -/
def PCG64.shuffleGo (p : PCG64) (n : Int) (fuel : Nat) : Option (List (Nat × Nat) × PCG64) :=
  PCG64.shuffleGoLoop fuel (n - 1).toNat p

/-- Function `bePutUint64(b, v)` of pcg64.go: writes `v` big-endian,
`b[0] = byte(v >> 56)` down to `b[7] = byte(v)` (the `byte` conversion
truncates modulo `2 ^ 8`).  The embedding returns the 8 written bytes. -/
def bePutUint64 (v : Nat) : List Nat :=
  [v >>> 56 % 2 ^ 8, v >>> 48 % 2 ^ 8, v >>> 40 % 2 ^ 8, v >>> 32 % 2 ^ 8,
   v >>> 24 % 2 ^ 8, v >>> 16 % 2 ^ 8, v >>> 8 % 2 ^ 8, v % 2 ^ 8]

/-- Function `beUint64(b)` of pcg64.go: reads the first 8 bytes big-endian,
`uint64(b[7]) | uint64(b[6])<<8 | ... | uint64(b[0])<<56`.  Go's `_ = b[7]`
bounds check panics on a shorter slice; every use in this file is behind a
length check, so the short case is mapped to 0. -/
def beUint64 : List Nat → Nat
  | b0 :: b1 :: b2 :: b3 :: b4 :: b5 :: b6 :: b7 :: _ =>
    b7 ||| b6 <<< 8 ||| b5 <<< 16 ||| b4 <<< 24 |||
      b3 <<< 32 ||| b2 <<< 40 ||| b1 <<< 48 ||| b0 <<< 56
  | _ => 0

/-- The 4-byte magic tag `"pcg:"` that `copy(b, "pcg:")` writes. -/
def pcgMagic : List Nat := [0x70, 0x63, 0x67, 0x3a]

/-- Method `PCG64.MarshalBinaryPCG64()` of pcg64.go: a 20-byte record, the
magic tag then `hi.state` and `lo.state` big-endian. -/
def PCG64.marshalBinaryPCG64 (p : PCG64) : List Nat :=
  pcgMagic ++ bePutUint64 p.hi.state ++ bePutUint64 p.lo.state

/-- Function `bePutUint64Unsafe(b, v)` of pcg64.go: despite its name it is
`*(*uint64)(unsafe.Pointer(&b[0])) = v`, a raw store of `v` in the
platform's native byte order.  Go's supported mainstream targets (amd64,
arm64, 386, arm, riscv64, wasm) are little-endian, so the store is
embedded as a little-endian write: least significant byte first. -/
def bePutUint64Raw (v : Nat) : List Nat :=
  [v % 2 ^ 8, v >>> 8 % 2 ^ 8, v >>> 16 % 2 ^ 8, v >>> 24 % 2 ^ 8,
   v >>> 32 % 2 ^ 8, v >>> 40 % 2 ^ 8, v >>> 48 % 2 ^ 8, v >>> 56 % 2 ^ 8]

/-- Method `PCG64.MarshalBinaryUnsafe()` of pcg64.go: the magic tag is
stored by reinterpreting the 4 bytes `{'p','c','g',':'}` as a `uint32` and
writing it back, which reproduces the same 4 bytes on any platform; the two
state words are stored with `bePutUint64Unsafe`, i.e. in native
(little-endian) byte order. -/
def PCG64.marshalBinaryRaw (p : PCG64) : List Nat :=
  pcgMagic ++ bePutUint64Raw p.hi.state ++ bePutUint64Raw p.lo.state

/-- Method `PCG64.UnmarshalBinary(b)` of pcg64.go: rejects its input with
`errUnmarshalPCG` (the `Bool` component `true`) unless `len(b) == 20` and
`b[:4] == "pcg:"`, leaving the generator untouched; otherwise sets
`hi.state = beUint64(b[4:])` and `lo.state = beUint64(b[12:])`, leaving
both increments unchanged. -/
def PCG64.unmarshalBinary (p : PCG64) (b : List Nat) : PCG64 × Bool :=
  if b.length ≠ 20 ∨ b.take 4 ≠ pcgMagic then (p, true)
  else (⟨⟨beUint64 (b.drop 4), p.hi.increment⟩, ⟨beUint64 (b.drop 12), p.lo.increment⟩⟩, false)

/-- Method `PCG64.next()` of pcg64.go: one 128-bit LCG step over the pair
`(hi.state, lo.state)`.  `bits.Mul64(p.lo.state, mulLo)` is the 128-bit
product split into high and low 64-bit words; the `+=` wraps modulo
`2 ^ 64`; `bits.Add64` adds with carry in and carry out.  Returns the
post-step `(hi, lo)` words and the updated generator. -/
def PCG64.next (p : PCG64) : (Nat × Nat) × PCG64 :=
  let mulHi := 2549297995355413924
  let mulLo := 4865540595714422341
  let incHi := 6364136223846793005
  let incLo := 1442695040888963407
  let hi0 := p.lo.state * mulLo / 2 ^ 64
  let lo0 := p.lo.state * mulLo % 2 ^ 64
  let hi1 := (hi0 + p.hi.state * mulLo % 2 ^ 64 + p.lo.state * mulHi % 2 ^ 64) % 2 ^ 64
  let lo2 := (lo0 + incLo) % 2 ^ 64
  let c := (lo0 + incLo) / 2 ^ 64
  let hi2 := (hi1 + incHi + c) % 2 ^ 64
  ((hi2, lo2), ⟨⟨hi2, p.hi.increment⟩, ⟨lo2, p.lo.increment⟩⟩)

/-! ## Helper lemmas for the serialization round trip -/

set_option maxRecDepth 100000

/-- Disjoint bitwise or is addition: when `acc` fits below bit `k`,
or-ing it with `b <<< k` is exactly `2 ^ k * b + acc`. -/
theorem or_shift (acc b k : Nat) (h : acc < 2 ^ k) : acc ||| b <<< k = 2 ^ k * b + acc := by
  rw [Nat.lor_comm, Nat.shiftLeft_eq, Nat.mul_comm b, ← Nat.mul_add_lt_is_or h b]

/-- The or-of-shifts read performed by `beUint64` is the base-256
recomposition of its eight bytes. -/
theorem bytes_recompose (b0 b1 b2 b3 b4 b5 b6 b7 : Nat)
    (h1 : b1 < 2 ^ 8) (h2 : b2 < 2 ^ 8) (h3 : b3 < 2 ^ 8) (h4 : b4 < 2 ^ 8)
    (h5 : b5 < 2 ^ 8) (h6 : b6 < 2 ^ 8) (h7 : b7 < 2 ^ 8) :
    b7 ||| b6 <<< 8 ||| b5 <<< 16 ||| b4 <<< 24 ||| b3 <<< 32 ||| b2 <<< 40 ||| b1 <<< 48 ||| b0 <<< 56
      = b0 * 2 ^ 56 + b1 * 2 ^ 48 + b2 * 2 ^ 40 + b3 * 2 ^ 32 + b4 * 2 ^ 24 + b5 * 2 ^ 16 + b6 * 2 ^ 8 + b7 := by
  rw [or_shift b7 b6 8 (by omega)]
  rw [or_shift (2 ^ 8 * b6 + b7) b5 16 (by omega)]
  rw [or_shift (2 ^ 16 * b5 + (2 ^ 8 * b6 + b7)) b4 24 (by omega)]
  rw [or_shift (2 ^ 24 * b4 + (2 ^ 16 * b5 + (2 ^ 8 * b6 + b7))) b3 32 (by omega)]
  rw [or_shift (2 ^ 32 * b3 + (2 ^ 24 * b4 + (2 ^ 16 * b5 + (2 ^ 8 * b6 + b7)))) b2 40 (by omega)]
  rw [or_shift (2 ^ 40 * b2 + (2 ^ 32 * b3 + (2 ^ 24 * b4 + (2 ^ 16 * b5 + (2 ^ 8 * b6 + b7))))) b1 48 (by omega)]
  rw [or_shift (2 ^ 48 * b1 + (2 ^ 40 * b2 + (2 ^ 32 * b3 + (2 ^ 24 * b4 + (2 ^ 16 * b5 + (2 ^ 8 * b6 + b7)))))) b0 56 (by omega)]
  ring

/-- Reading back the eight bytes written by `bePutUint64` (followed by any
trailing bytes) recovers the 64-bit value. -/
theorem beUint64_bePut_append (v : Nat) (hv : v < 2 ^ 64) (rest : List Nat) :
    beUint64 (bePutUint64 v ++ rest) = v := by
  have e : beUint64 (bePutUint64 v ++ rest)
      = v % 2 ^ 8 ||| (v >>> 8 % 2 ^ 8) <<< 8 ||| (v >>> 16 % 2 ^ 8) <<< 16 |||
        (v >>> 24 % 2 ^ 8) <<< 24 ||| (v >>> 32 % 2 ^ 8) <<< 32 ||| (v >>> 40 % 2 ^ 8) <<< 40 |||
        (v >>> 48 % 2 ^ 8) <<< 48 ||| (v >>> 56 % 2 ^ 8) <<< 56 := rfl
  rw [e, bytes_recompose _ _ _ _ _ _ _ _
        (Nat.mod_lt _ (by omega)) (Nat.mod_lt _ (by omega)) (Nat.mod_lt _ (by omega))
        (Nat.mod_lt _ (by omega)) (Nat.mod_lt _ (by omega)) (Nat.mod_lt _ (by omega))
        (Nat.mod_lt _ (by omega))]
  simp only [Nat.shiftRight_eq_div_pow]
  omega

/-- Variant of `beUint64_bePut_append` with nothing after the eight bytes. -/
theorem beUint64_bePut (v : Nat) (hv : v < 2 ^ 64) : beUint64 (bePutUint64 v) = v := by
  have := beUint64_bePut_append v hv []
  rwa [List.append_nil] at this

/-! ## The claims -/

/-- C1, counterexample: seeding with `(seed, sequence) = (0, 1)` refutes the
claimed assignment `state = (seed + increment) * multiplier + increment`
(with `increment = (sequence << 1) | 1 = 3` the just-computed per-generator
increment): the code adds the fixed constant `incrementStep`, not the
per-generator increment. -/
theorem seed_state_claim_counterexample :
    (newPCG32.seed 0 1).state
      ≠ ((0 + ((1 <<< 1) ||| 1)) * 0x5851f42d4c957f2d + ((1 <<< 1) ||| 1)) % 2 ^ 64 := by
  decide

/-- C1, as amended: for every receiver and all 64-bit inputs, `Seed` sets
`increment = (sequence << 1) | 1` and
`state = (seed + increment) * multiplier + incrementStep`, where
`multiplier = 0x5851f42d4c957f2d` and `incrementStep = 0x9e3779b97f4a7c15`
is the package's fixed additive constant, all arithmetic wrapping modulo
`2 ^ 64`. -/
theorem seed_sets_increment_and_state (p : PCG32) (state sequence : Nat) :
    (p.seed state sequence).increment = ((sequence <<< 1) % 2 ^ 64) ||| 1
    ∧ (p.seed state sequence).state
      = ((state + (((sequence <<< 1) % 2 ^ 64) ||| 1)) * 0x5851f42d4c957f2d
          + 0x9e3779b97f4a7c15) % 2 ^ 64 :=
  ⟨rfl, rfl⟩

/-- C2: `Advance(delta)` does not match `delta` output-producing steps on a
seeded generator.  `PCG32.Advance` hands the package constant
`incrementStep` to `advancedLCG64` instead of the generator's own
`p.increment`, so for the generator seeded with `Seed(0, 1)` (whose
increment is 3) one `Advance(1)` and one `Uint32()` step land on different
states; the same divergence shows through `PCG64.Advance` against one
`Uint64()` step of `NewPCG64(1, 2)`, whose sub-generators have increment 1. -/
theorem advance_diverges_from_stepping :
    ((newPCG32.seed 0 1).advance 1).state ≠ ((newPCG32.seed 0 1).uint32).2.state
    ∧ ((newPCG64 1 2).advance 1).hi.state ≠ ((newPCG64 1 2).uint64).2.hi.state := by
  constructor <;> decide

/-- C3: `Advance(delta)` followed by `Retreat(delta)` does not restore a
`PCG64`: `PCG64.Retreat` computes `safeDelta := ^uint64(0) - 1`, the
constant `2 ^ 64 - 2`, ignoring `delta`, so the pair of calls nets one step
backwards instead of zero.  For `PCG32`, whose `Retreat` correctly uses
`^delta + 1`, the same pair of calls does restore the state. -/
theorem advance_retreat_not_inverse_pcg64 :
    ((((newPCG64 1 2).advance 1).retreat 1).hi.state ≠ (newPCG64 1 2).hi.state
      ∧ (((newPCG64 1 2).advance 1).retreat 1).lo.state ≠ (newPCG64 1 2).lo.state)
    ∧ (((newPCG32.seed 0 1).advance 5).retreat 5).state = (newPCG32.seed 0 1).state := by
  refine ⟨⟨?_, ?_⟩, ?_⟩ <;> decide

/-- C4: at `bound = 0` the 32-bit sampler returns 0 as claimed, but
`PCG64.Uint64n(0)` evaluates `-bound % bound` with a zero divisor before
its loop and panics, for any fuel: the 64-bit sampler does not follow the
32-bit policy at `bound == 0` and does fail. -/
theorem uint64n_zero_bound_panics :
    (newPCG32.seed 12345 67890).uintn32 0 100 = some (0, newPCG32.seed 12345 67890)
    ∧ ∀ fuel : Nat, PCG64.uint64n (newPCG64 1 2) 0 fuel = U64nResult.panicked :=
  ⟨rfl, fun _ => rfl⟩

/-- C5: the portable and the raw-memory encodes do not agree byte for byte.
On the little-endian platforms Go targets, `bePutUint64Unsafe` lays the
state words down least-significant byte first while `MarshalBinaryPCG64`
writes them big-endian, so at `hi.state = 1`, `lo.state = 2` the two
20-byte records agree on the magic tag but differ in the state bytes. -/
theorem marshal_portable_raw_disagree :
    ((PCG64.mk ⟨1, 1⟩ ⟨2, 1⟩).marshalBinaryPCG64).take 4
        = ((PCG64.mk ⟨1, 1⟩ ⟨2, 1⟩).marshalBinaryRaw).take 4
    ∧ (PCG64.mk ⟨1, 1⟩ ⟨2, 1⟩).marshalBinaryPCG64 ≠ (PCG64.mk ⟨1, 1⟩ ⟨2, 1⟩).marshalBinaryRaw := by
  constructor <;> decide

/-- C6: for every PCG64 whose state words are 64-bit values (as every
reachable state's are), `MarshalBinaryPCG64` followed by `UnmarshalBinary`
on the same generator succeeds and restores the generator exactly: both
`state` fields come back to their pre-encode values and the increments,
which are not persisted, are left unchanged. -/
theorem marshal_unmarshal_roundtrip (p : PCG64)
    (hh : p.hi.state < 2 ^ 64) (hl : p.lo.state < 2 ^ 64) :
    p.unmarshalBinary p.marshalBinaryPCG64 = (p, false) := by
  unfold PCG64.unmarshalBinary PCG64.marshalBinaryPCG64
  have hlen : (pcgMagic ++ bePutUint64 p.hi.state ++ bePutUint64 p.lo.state).length = 20 := by
    simp [pcgMagic, bePutUint64]
  have htake : (pcgMagic ++ bePutUint64 p.hi.state ++ bePutUint64 p.lo.state).take 4 = pcgMagic := rfl
  have hcond : ¬((pcgMagic ++ bePutUint64 p.hi.state ++ bePutUint64 p.lo.state).length ≠ 20 ∨
      (pcgMagic ++ bePutUint64 p.hi.state ++ bePutUint64 p.lo.state).take 4 ≠ pcgMagic) := by
    push_neg
    exact ⟨hlen, htake⟩
  rw [if_neg hcond]
  have d4 : (pcgMagic ++ bePutUint64 p.hi.state ++ bePutUint64 p.lo.state).drop 4
      = bePutUint64 p.hi.state ++ bePutUint64 p.lo.state := rfl
  have d12 : (pcgMagic ++ bePutUint64 p.hi.state ++ bePutUint64 p.lo.state).drop 12
      = bePutUint64 p.lo.state := rfl
  rw [d4, d12, beUint64_bePut_append p.hi.state hh, beUint64_bePut p.lo.state hl]

/-- Witness for C6: the round trip at the concrete generator
`NewPCG64(1, 2)`. -/
theorem marshal_unmarshal_roundtrip_witness :
    (newPCG64 1 2).unmarshalBinary (newPCG64 1 2).marshalBinaryPCG64 = (newPCG64 1 2, false) :=
  marshal_unmarshal_roundtrip (newPCG64 1 2) (by decide) (by decide)

/-- C7: `UnmarshalBinary` reports the invalid-encoding error exactly when
the input's length is not 20 or its first 4 bytes are not `"pcg:"`, and on
that failure it returns the generator completely unmodified. -/
theorem unmarshal_error_iff_bad_encoding (p : PCG64) (b : List Nat) :
    ((p.unmarshalBinary b).2 = true ↔ (b.length ≠ 20 ∨ b.take 4 ≠ pcgMagic))
    ∧ ((p.unmarshalBinary b).2 = true → (p.unmarshalBinary b).1 = p) := by
  unfold PCG64.unmarshalBinary
  by_cases h : b.length ≠ 20 ∨ b.take 4 ≠ pcgMagic
  · simp [h]
  · simp [h]

/-- C8: on a negative size the two Shuffles disagree with the fail-fast
contract only on the 64-bit side: `PCG32.Shuffle(-1)` panics as specified,
but `PCG64.Shuffle(-1)` has no guard, runs its loop zero times and returns
silently with no swap calls and the generator untouched, exactly like its
`n < 2` no-op cases. -/
theorem shuffle_negative_no_panic_pcg64 :
    PCG32.shuffleGo newPCG32 (-1) 5 = none
    ∧ PCG32.shuffleGo newPCG32 1 5 = some ([], newPCG32)
    ∧ PCG64.shuffleGo (newPCG64 1 2) (-1) 5 = some ([], newPCG64 1 2)
    ∧ PCG64.shuffleGo (newPCG64 1 2) 1 5 = some ([], newPCG64 1 2) :=
  ⟨rfl, rfl, rfl, rfl⟩

/-- C9: for every pre-step pair of 64-bit state words, `PCG64.next`
replaces `(hi.state, lo.state)` with exactly the high and low words of
`(hi * 2^64 + lo) * M + I` reduced modulo `2 ^ 128`, where
`M = 2549297995355413924 * 2^64 + 4865540595714422341` and
`I = 6364136223846793005 * 2^64 + 1442695040888963407` are the fixed
128-bit multiplier and increment, and returns those words. -/
theorem next_is_128bit_lcg_step (p : PCG64)
    (hh : p.hi.state < 2 ^ 64) (hl : p.lo.state < 2 ^ 64) :
    (p.next).1.1 * 2 ^ 64 + (p.next).1.2
      = ((p.hi.state * 2 ^ 64 + p.lo.state)
            * (2549297995355413924 * 2 ^ 64 + 4865540595714422341)
          + (6364136223846793005 * 2 ^ 64 + 1442695040888963407)) % 2 ^ 128
    ∧ (p.next).2.hi.state = (p.next).1.1 ∧ (p.next).2.lo.state = (p.next).1.2 := by
  refine ⟨?_, rfl, rfl⟩
  simp only [PCG64.next]
  omega

/-- Witness for C9: the 128-bit step at the concrete generator
`NewPCG64(1, 2)`. -/
theorem next_is_128bit_lcg_step_witness :
    ((newPCG64 1 2).next).1.1 * 2 ^ 64 + ((newPCG64 1 2).next).1.2
      = (((newPCG64 1 2).hi.state * 2 ^ 64 + (newPCG64 1 2).lo.state)
            * (2549297995355413924 * 2 ^ 64 + 4865540595714422341)
          + (6364136223846793005 * 2 ^ 64 + 1442695040888963407)) % 2 ^ 128
    ∧ ((newPCG64 1 2).next).2.hi.state = ((newPCG64 1 2).next).1.1
    ∧ ((newPCG64 1 2).next).2.lo.state = ((newPCG64 1 2).next).1.2 :=
  next_is_128bit_lcg_step (newPCG64 1 2) (by decide) (by decide)

/-- C10: `NewPCG64(seed1, seed2)` is exactly the two sub-generators seeded
with sequence 0, so both increments are `(0 << 1) | 1 = 1` — the two
internal streams share the same effective sequence constant, and the
sequence-separation complement that `PCG64.Seed` would apply to coinciding
sequences is never applied by this constructor. -/
theorem newPCG64_increments_one (seed1 seed2 : Nat) :
    newPCG64 seed1 seed2 = ⟨newPCG32.seed seed1 0, newPCG32.seed seed2 0⟩
    ∧ (newPCG64 seed1 seed2).hi.increment = 1
    ∧ (newPCG64 seed1 seed2).lo.increment = 1 :=
  ⟨rfl, rfl, rfl⟩
